import Mathlib

set_option maxHeartbeats 1000000

/-!
Verification development for the credentials manager of
src/src/libtomahawk/accounts/CredentialsManager.cpp.

The embedding models the manager state (service registry, in-memory
credential cache, in-flight read jobs) and the operations addService /
loadCredentials, setCredentials (write and delete paths, with the
QVariantHash and QString overloads), the read-job completion handler
keychainJobFinished (read case), and the query functions keys and
credentials.  The external secret backend is modelled by explicit job
records and completion events; the external JSON codec is modelled by
abstract parse (decode) and serialize (encode) functions passed as
parameters.
-/

/-- Immutable compound identifier naming one credential slot, mirroring
CredentialsStorageKey (CredentialsManager.cpp lines 37-53): structural
equality over both fields. -/
structure CredentialsStorageKey where
  service : String
  key : String
  deriving DecidableEq, Repr

/-- Model of the QVariant values the manager stores: the invalid/null
variant, strings, and string-keyed hashes (QVariantHash).  Hash entry
values are abstracted to strings; no claim depends on the nested shape
of a bundle entry value. -/
inductive QVariant where
  | null : QVariant
  | str : String → QVariant
  | hash : List (String × String) → QVariant
  deriving DecidableEq, Repr

/-- The emptiness test of setCredentials (lines 151-153): value.isNull(),
or a hash-typed value whose hash is empty, or a string-typed value whose
string is empty. -/
def QVariant.isEmptyValue : QVariant → Bool
  | QVariant.null => true
  | QVariant.str s => s.isEmpty
  | QVariant.hash h => h.isEmpty

/-- value.type() == QVariant::String. -/
def QVariant.isStr : QVariant → Bool
  | QVariant.str _ => true
  | _ => false

/-- value.type() == QVariant::Hash. -/
def QVariant.isHash : QVariant → Bool
  | QVariant.hash _ => true
  | _ => false

/-- QVariant::toString for the variants in play (non-string variants give
the empty string). -/
def QVariant.toStr : QVariant → String
  | QVariant.str s => s
  | _ => ""

/-- The toMap()-then-rebuild-hash conversion of keychainJobFinished
(lines 242-249): a map/hash-shaped variant yields its entries; any other
variant yields the empty hash. -/
def QVariant.toHashList : QVariant → List (String × String)
  | QVariant.hash h => h
  | _ => []

/-- The in-memory credential cache m_credentials, a QHash from storage
key to value, modelled as an association list. -/
abbrev Store := List (CredentialsStorageKey × QVariant)

/-- QHash::value with default-constructed (null) QVariant when the key is
absent (line 134 and line 166). -/
def Store.valueD : Store → CredentialsStorageKey → QVariant
  | [], _ => QVariant.null
  | p :: rest, k => if p.1 = k then p.2 else Store.valueD rest k

/-- QHash::contains (line 155). -/
def Store.containsKey : Store → CredentialsStorageKey → Bool
  | [], _ => false
  | p :: rest, k => if p.1 = k then true else Store.containsKey rest k

/-- QHash::remove (line 158): removes every entry stored under the key. -/
def Store.removeKey : Store → CredentialsStorageKey → Store
  | [], _ => []
  | p :: rest, k =>
      if p.1 = k then Store.removeKey rest k else p :: Store.removeKey rest k

/-- QHash::insert (lines 169 and 256): replaces any existing entry for
the key. -/
def Store.insertKV (s : Store) (k : CredentialsStorageKey) (v : QVariant) : Store :=
  (k, v) :: Store.removeKey s k

/-- One QKeychain::ReadPasswordJob launched by loadCredentials; the id
field stands for the object identity of the heap-allocated job and
correlates a completion event with the pending job. -/
structure ReadJob where
  service : String
  key : String
  id : Nat
  deriving DecidableEq, Repr

/-- Outcome reported by the keychain backend when a read job finishes:
either NoError together with the textData() payload, or an error. -/
inductive JobResult where
  | ok : String → JobResult
  | err : JobResult
  deriving DecidableEq, Repr

/-- One QKeychain::WritePasswordJob issued by the setCredentials write
path.  payload is the argument of the setTextData call made on the job,
or none when no setTextData call was made before start(). -/
structure WriteJob where
  service : String
  key : String
  payload : Option String
  deriving DecidableEq, Repr

/-- The full manager state: m_services, m_credentials and m_readJobs,
plus observable traces of emitted serviceReady signals and of the read,
write and delete jobs started against the backend.  nextId is the
allocator for read-job identities. -/
structure MgrState where
  services : String → List String
  credentials : Store
  readJobs : String → List ReadJob
  nextId : Nat
  emitted : List String
  issuedReads : List ReadJob
  issuedWrites : List WriteJob
  issuedDeletes : List (String × String)

/-- The read jobs launched by the foreach loop of loadCredentials (lines
87-100) for the given key list, with consecutive identities from n. -/
def mkJobs (svc : String) : List String → Nat → List ReadJob
  | [], _ => []
  | k :: ks, n => ReadJob.mk svc k n :: mkJobs svc ks (n + 1)

/-- CredentialsManager::loadCredentials (lines 81-108): one read job per
registered key is started and recorded in m_readJobs under the service;
if afterwards the service has no pending read jobs, serviceReady is
emitted synchronously. -/
def loadCredentials (st : MgrState) (svc : String) : MgrState :=
  let accountIds := st.services svc
  let newJobs := mkJobs svc accountIds st.nextId
  let jobs2 : String → List ReadJob :=
    fun s => if s = svc then st.readJobs svc ++ newJobs else st.readJobs s
  let st2 : MgrState :=
    { st with readJobs := jobs2, nextId := st.nextId + accountIds.length,
              issuedReads := st.issuedReads ++ newJobs }
  if (st2.readJobs svc).isEmpty then { st2 with emitted := st2.emitted ++ [svc] }
  else st2

/-- CredentialsManager::addService (lines 71-78): the key set registered
for the service is replaced and loadCredentials is called. -/
def addService (st : MgrState) (svc : String) (accountIds : List String) : MgrState :=
  loadCredentials
    { st with services := fun s => if s = svc then accountIds else st.services s } svc

/-- The value stored by the success branch of keychainJobFinished (lines
236-254): the payload is parsed, the parse result is converted to a hash;
if parsing failed or the hash is empty the raw payload string is kept,
otherwise the hash. -/
def readSuccessValue (parse : String → Option QVariant) (payload : String) : QVariant :=
  if !(parse payload).isSome
      || (QVariant.toHashList ((parse payload).getD QVariant.null)).isEmpty then
    QVariant.str payload
  else QVariant.hash (QVariant.toHashList ((parse payload).getD QVariant.null))

/-- The ReadPasswordJob branch of CredentialsManager::keychainJobFinished
(lines 229-269): on NoError the decoded (or raw) value is inserted into
the cache; on error nothing is inserted; in both cases the job is removed
from the per-service pending list (QList::removeOne) and, if the list is
then empty, serviceReady is emitted for the job's service. -/
def keychainJobFinishedRead (parse : String → Option QVariant) (st : MgrState)
    (j : ReadJob) (res : JobResult) : MgrState :=
  let creds : Store :=
    match res with
    | JobResult.ok payload =>
        Store.insertKV st.credentials (CredentialsStorageKey.mk j.service j.key)
          (readSuccessValue parse payload)
    | JobResult.err => st.credentials
  let jobs2 : String → List ReadJob :=
    fun s => if s = j.service then (st.readJobs j.service).erase j else st.readJobs s
  if ((st.readJobs j.service).erase j).isEmpty then
    { st with credentials := creds, readJobs := jobs2,
              emitted := st.emitted ++ [j.service] }
  else
    { st with credentials := creds, readJobs := jobs2 }

/-- A sequence of read-job completion events delivered to
keychainJobFinished, in arrival order. -/
def processCompletions (parse : String → Option QVariant) (st : MgrState) :
    List (ReadJob × JobResult) → MgrState
  | [] => st
  | e :: t => processCompletions parse (keychainJobFinishedRead parse st e.1 e.2) t

/-- The textData passed to the write job by setCredentials (lines
176-196): the raw string when tryToWriteAsString is set and the value is
a string; the serializer output (whether or not serialization reported
success) when the value is a hash; otherwise no setTextData call is
made at all. -/
def writePayload (ser : List (String × String) → String × Bool)
    (value : QVariant) (tryToWriteAsString : Bool) : Option String :=
  if tryToWriteAsString && value.isStr then Option.some value.toStr
  else if value.isHash then Option.some (ser value.toHashList).1
  else Option.none

/-- CredentialsManager::setCredentials (lines 145-208).  Empty/null value:
bail if the key is not cached, else remove the cache entry and start a
delete job.  Non-empty value: bail if equal to the cached value, else
insert into the cache and start a write job whose textData is given by
writePayload. -/
def setCredentials (ser : List (String × String) → String × Bool) (st : MgrState)
    (csKey : CredentialsStorageKey) (value : QVariant)
    (tryToWriteAsString : Bool) : MgrState :=
  if value.isEmptyValue then
    if Store.containsKey st.credentials csKey then
      { st with credentials := Store.removeKey st.credentials csKey,
                issuedDeletes := st.issuedDeletes ++ [(csKey.service, csKey.key)] }
    else st
  else
    if value = Store.valueD st.credentials csKey then st
    else
      { st with credentials := Store.insertKV st.credentials csKey value,
                issuedWrites := st.issuedWrites ++
                  [WriteJob.mk csKey.service csKey.key
                    (writePayload ser value tryToWriteAsString)] }

/-- The QVariantHash overload of setCredentials (lines 211-215). -/
def setCredentialsHash (ser : List (String × String) → String × Bool) (st : MgrState)
    (serviceName key : String) (value : List (String × String)) : MgrState :=
  setCredentials ser st (CredentialsStorageKey.mk serviceName key)
    (QVariant.hash value) false

/-- The QString overload of setCredentials (lines 218-222). -/
def setCredentialsStr (ser : List (String × String) → String × Bool) (st : MgrState)
    (serviceName key value : String) : MgrState :=
  setCredentials ser st (CredentialsStorageKey.mk serviceName key)
    (QVariant.str value) true

/-- CredentialsManager::credentials (lines 131-142). -/
def credentialsFor (st : MgrState) (serviceName key : String) : QVariant :=
  Store.valueD st.credentials (CredentialsStorageKey.mk serviceName key)

/-- The filtering loop of CredentialsManager::keys over the cache's key
list. -/
def keysAux (service : String) : List CredentialsStorageKey → List String
  | [] => []
  | k :: rest =>
      if k.service = service then k.key :: keysAux service rest
      else keysAux service rest

/-- CredentialsManager::keys (lines 111-121): the key components of the
cache entries whose service component matches. -/
def keysOf (st : MgrState) (service : String) : List String :=
  keysAux service (st.credentials.map Prod.fst)

/-- A fresh manager: no registered services, empty cache, no pending
jobs, nothing emitted or issued. -/
def mgr0 : MgrState :=
  { services := fun _ => [], credentials := [], readJobs := fun _ => [],
    nextId := 0, emitted := [], issuedReads := [], issuedWrites := [],
    issuedDeletes := [] }

/-- A parse function that always fails; QJson's parser behaves this way
on the empty input and on any non-JSON text. -/
def parseNone : String → Option QVariant := fun _ => Option.none

/-- A serializer that reports failure and produces an empty byte
sequence. -/
def serFail : List (String × String) → String × Bool := fun _ => ("", false)

/-! ### Store lemmas -/

lemma Store.valueD_removeKey_ne (s : Store) (k k2 : CredentialsStorageKey)
    (h : k2 ≠ k) : Store.valueD (Store.removeKey s k) k2 = Store.valueD s k2 := by
  induction s with
  | nil => rfl
  | cons p rest ih =>
      by_cases hp : p.1 = k
      · have hp2 : ¬ p.1 = k2 := fun hc => h (hc ▸ hp)
        simp only [Store.removeKey, if_pos hp, Store.valueD, if_neg hp2]
        exact ih
      · simp only [Store.removeKey, if_neg hp, Store.valueD]
        by_cases hq : p.1 = k2
        · rw [if_pos hq, if_pos hq]
        · rw [if_neg hq, if_neg hq]
          exact ih

lemma Store.containsKey_removeKey_self (s : Store) (k : CredentialsStorageKey) :
    Store.containsKey (Store.removeKey s k) k = false := by
  induction s with
  | nil => rfl
  | cons p rest ih =>
      by_cases hp : p.1 = k
      · simp only [Store.removeKey, if_pos hp]
        exact ih
      · simp only [Store.removeKey, if_neg hp, Store.containsKey]
        exact ih

lemma Store.valueD_insertKV_self (s : Store) (k : CredentialsStorageKey)
    (v : QVariant) : Store.valueD (Store.insertKV s k v) k = v := by
  simp [Store.insertKV, Store.valueD]

lemma Store.valueD_insertKV_ne (s : Store) (k k2 : CredentialsStorageKey)
    (v : QVariant) (h : k2 ≠ k) :
    Store.valueD (Store.insertKV s k v) k2 = Store.valueD s k2 := by
  have hk : ¬ k = k2 := fun hc => h hc.symm
  simp only [Store.insertKV, Store.valueD, if_neg hk]
  exact Store.valueD_removeKey_ne s k k2 h

lemma Store.containsKey_iff_mem (s : Store) (k : CredentialsStorageKey) :
    Store.containsKey s k = true ↔ k ∈ s.map Prod.fst := by
  induction s with
  | nil => simp [Store.containsKey]
  | cons p rest ih =>
      by_cases hp : p.1 = k
      · simp only [Store.containsKey, if_pos hp, List.map_cons, List.mem_cons]
        exact iff_of_true trivial (Or.inl hp.symm)
      · simp only [Store.containsKey, if_neg hp, List.map_cons, List.mem_cons]
        rw [ih]
        constructor
        · exact fun hm => Or.inr hm
        · intro hm
          cases hm with
          | inl he => exact absurd he.symm hp
          | inr hm2 => exact hm2

/-! ### Claim C9 -/

lemma keysAux_mem_iff (service k : String) (l : List CredentialsStorageKey) :
    k ∈ keysAux service l ↔ CredentialsStorageKey.mk service k ∈ l := by
  induction l with
  | nil => simp [keysAux]
  | cons x rest ih =>
      obtain ⟨xs, xk⟩ := x
      by_cases hs : xs = service
      · subst hs
        simp [keysAux, ih, CredentialsStorageKey.mk.injEq]
      · have hs2 : ¬ service = xs := fun hc => hs hc.symm
        simp [keysAux, hs, hs2, ih, CredentialsStorageKey.mk.injEq]

/-- Claim C9: for every cache state, keys(service) contains a key k exactly
when the cache holds an entry for the storage key (service, k); so the keys
reported for one service never include keys cached under a different
service, and the result is derived from the cache contents alone. -/
theorem keys_exactly_cached_for_service (st : MgrState) (service k : String) :
    k ∈ keysOf st service ↔
      Store.containsKey st.credentials (CredentialsStorageKey.mk service k) = true := by
  rw [keysOf, keysAux_mem_iff]
  exact (Store.containsKey_iff_mem st.credentials (CredentialsStorageKey.mk service k)).symm

/-! ### Claim C4 -/

/-- Claim C4: calling setCredentials with a non-empty value structurally
equal to the currently cached value is a complete no-op (state unchanged,
no job issued), and a repeated call with the same arguments is always a
no-op, so two consecutive equal calls issue at most one backend write. -/
theorem setCredentials_equal_noop_idempotent
    (ser : List (String × String) → String × Bool) (st : MgrState)
    (csKey : CredentialsStorageKey) (value : QVariant) (tw : Bool)
    (hne : value.isEmptyValue = false) :
    (value = Store.valueD st.credentials csKey →
      setCredentials ser st csKey value tw = st)
    ∧ setCredentials ser (setCredentials ser st csKey value tw) csKey value tw
        = setCredentials ser st csKey value tw := by
  have hnoop : ∀ st2 : MgrState, value = Store.valueD st2.credentials csKey →
      setCredentials ser st2 csKey value tw = st2 := by
    intro st2 heq
    rw [setCredentials, if_neg (by rw [hne]; exact Bool.false_ne_true), if_pos heq]
  constructor
  · exact hnoop st
  · by_cases heq : value = Store.valueD st.credentials csKey
    · rw [hnoop st heq]
      exact hnoop st heq
    · have hset : setCredentials ser st csKey value tw =
        { st with credentials := Store.insertKV st.credentials csKey value,
                  issuedWrites := st.issuedWrites ++
                    [WriteJob.mk csKey.service csKey.key
                      (writePayload ser value tw)] } := by
        rw [setCredentials, if_neg (by rw [hne]; exact Bool.false_ne_true), if_neg heq]
      rw [hset]
      apply hnoop
      exact (Store.valueD_insertKV_self st.credentials csKey value).symm

/-- A concrete storage key used by the witnesses. -/
def keyEP : CredentialsStorageKey := CredentialsStorageKey.mk "email" "pass"

/-- A concrete manager state whose cache holds one string credential. -/
def mgrCached : MgrState :=
  { mgr0 with credentials := [(keyEP, QVariant.str "secret123")] }

/-- Witness for C4: at the concrete cached state, both the no-op and the
idempotence conclusions hold. -/
theorem setCredentials_equal_noop_idempotent_witness :
    QVariant.isEmptyValue (QVariant.str "secret123") = false ∧
    ((QVariant.str "secret123" = Store.valueD mgrCached.credentials keyEP →
        setCredentials serFail mgrCached keyEP (QVariant.str "secret123") true
          = mgrCached)
      ∧ setCredentials serFail
          (setCredentials serFail mgrCached keyEP (QVariant.str "secret123") true)
          keyEP (QVariant.str "secret123") true
        = setCredentials serFail mgrCached keyEP (QVariant.str "secret123") true) :=
  ⟨by decide, setCredentials_equal_noop_idempotent serFail mgrCached keyEP
      (QVariant.str "secret123") true (by decide)⟩

/-! ### Claim C5 -/

/-- Claim C5: setCredentials with an absent/empty value (null, empty
bundle, or empty string) bails out leaving the state unchanged when the
key is not cached; otherwise it removes exactly that cache entry and
issues one backend delete job for that service/key pair. -/
theorem setCredentials_empty_delete_path
    (ser : List (String × String) → String × Bool) (st : MgrState)
    (csKey : CredentialsStorageKey) (value : QVariant) (tw : Bool)
    (hempty : value.isEmptyValue = true) :
    (Store.containsKey st.credentials csKey = false →
      setCredentials ser st csKey value tw = st)
    ∧ (Store.containsKey st.credentials csKey = true →
        setCredentials ser st csKey value tw =
          { st with credentials := Store.removeKey st.credentials csKey,
                    issuedDeletes := st.issuedDeletes ++ [(csKey.service, csKey.key)] }
        ∧ Store.containsKey
            (setCredentials ser st csKey value tw).credentials csKey = false
        ∧ ∀ k2, k2 ≠ csKey →
            Store.valueD (setCredentials ser st csKey value tw).credentials k2
              = Store.valueD st.credentials k2) := by
  constructor
  · intro hnc
    rw [setCredentials, if_pos hempty, if_neg (by rw [hnc]; exact Bool.false_ne_true)]
  · intro hc
    have hdel : setCredentials ser st csKey value tw =
        { st with credentials := Store.removeKey st.credentials csKey,
                  issuedDeletes := st.issuedDeletes ++ [(csKey.service, csKey.key)] } := by
      rw [setCredentials, if_pos hempty, if_pos hc]
    refine ⟨hdel, ?_, ?_⟩
    · rw [hdel]
      exact Store.containsKey_removeKey_self st.credentials csKey
    · intro k2 hk2
      rw [hdel]
      exact Store.valueD_removeKey_ne st.credentials csKey k2 hk2

/-- Witness for C5: deleting the cached entry of the concrete state via a
null value removes it and issues one delete job. -/
theorem setCredentials_empty_delete_path_witness :
    QVariant.isEmptyValue QVariant.null = true ∧
    ((Store.containsKey mgrCached.credentials keyEP = false →
        setCredentials serFail mgrCached keyEP QVariant.null false = mgrCached)
      ∧ (Store.containsKey mgrCached.credentials keyEP = true →
          setCredentials serFail mgrCached keyEP QVariant.null false =
            { mgrCached with
                credentials := Store.removeKey mgrCached.credentials keyEP,
                issuedDeletes := mgrCached.issuedDeletes
                  ++ [(keyEP.service, keyEP.key)] }
          ∧ Store.containsKey
              (setCredentials serFail mgrCached keyEP QVariant.null false).credentials
              keyEP = false
          ∧ ∀ k2, k2 ≠ keyEP →
              Store.valueD
                (setCredentials serFail mgrCached keyEP QVariant.null false).credentials
                k2 = Store.valueD mgrCached.credentials k2)) :=
  ⟨rfl, setCredentials_empty_delete_path serFail mgrCached keyEP QVariant.null false rfl⟩

/-! ### Claim C10 -/

/-- Claim C10: a setCredentials call with a non-empty string value, with
tryToWriteAsString false, and a value different from the cached one still
updates the cache to the string, but the write job it issues has no
textData set at all: neither the opaque-string branch nor the
bundle-encoding branch applies. -/
theorem setCredentials_string_without_preferOpaque_no_payload
    (ser : List (String × String) → String × Bool) (st : MgrState)
    (csKey : CredentialsStorageKey) (s : String)
    (hs : s ≠ "") (hdiff : QVariant.str s ≠ Store.valueD st.credentials csKey) :
    setCredentials ser st csKey (QVariant.str s) false =
      { st with credentials := Store.insertKV st.credentials csKey (QVariant.str s),
                issuedWrites := st.issuedWrites ++
                  [WriteJob.mk csKey.service csKey.key Option.none] } := by
  have hemp : (QVariant.str s).isEmptyValue = false := by
    show s.isEmpty = false
    rw [Bool.eq_false_iff]
    intro h
    exact hs ((String.isEmpty_iff s).mp h)
  rw [setCredentials, if_neg (by rw [hemp]; exact Bool.false_ne_true), if_neg hdiff]
  rfl

/-- Witness for C10 at the fresh state: writing "secret123" without the
string preference caches the string but issues a write job with no
payload. -/
theorem setCredentials_string_without_preferOpaque_no_payload_witness :
    "secret123" ≠ "" ∧
    QVariant.str "secret123" ≠ Store.valueD mgr0.credentials keyEP ∧
    setCredentials serFail mgr0 keyEP (QVariant.str "secret123") false =
      { mgr0 with
          credentials := Store.insertKV mgr0.credentials keyEP
            (QVariant.str "secret123"),
          issuedWrites := mgr0.issuedWrites ++
            [WriteJob.mk keyEP.service keyEP.key Option.none] } :=
  ⟨by decide, by decide,
    setCredentials_string_without_preferOpaque_no_payload serFail mgr0 keyEP
      "secret123" (by decide) (by decide)⟩

/-! ### Projections of the read-completion handler -/

lemma keychainJobFinishedRead_credentials (parse : String → Option QVariant)
    (st : MgrState) (j : ReadJob) (res : JobResult) :
    (keychainJobFinishedRead parse st j res).credentials
      = (match res with
         | JobResult.ok payload =>
             Store.insertKV st.credentials (CredentialsStorageKey.mk j.service j.key)
               (readSuccessValue parse payload)
         | JobResult.err => st.credentials) := by
  unfold keychainJobFinishedRead
  by_cases hc : ((st.readJobs j.service).erase j).isEmpty = true
  · rw [if_pos hc]
  · rw [if_neg hc]

lemma keychainJobFinishedRead_readJobs (parse : String → Option QVariant)
    (st : MgrState) (j : ReadJob) (res : JobResult) :
    (keychainJobFinishedRead parse st j res).readJobs
      = fun s => if s = j.service then (st.readJobs j.service).erase j
                 else st.readJobs s := by
  unfold keychainJobFinishedRead
  by_cases hc : ((st.readJobs j.service).erase j).isEmpty = true
  · rw [if_pos hc]
  · rw [if_neg hc]

lemma keychainJobFinishedRead_emitted (parse : String → Option QVariant)
    (st : MgrState) (j : ReadJob) (res : JobResult) :
    (keychainJobFinishedRead parse st j res).emitted
      = (if ((st.readJobs j.service).erase j).isEmpty then st.emitted ++ [j.service]
         else st.emitted) := by
  unfold keychainJobFinishedRead
  by_cases hc : ((st.readJobs j.service).erase j).isEmpty = true
  · rw [if_pos hc, if_pos hc]
  · rw [if_neg hc, if_neg hc]

/-! ### Claim C3 -/

/-- Specification-level restatement of the read-completion decode policy
(spec section 4.3), phrased over an abstract Codec.decode returning an
optional bundle: if decoding succeeds and yields a non-empty bundle, the
decoded bundle is stored; otherwise the raw payload is stored as an
opaque string. -/
def specReadValue (decode : String → Option (List (String × String)))
    (payload : String) : QVariant :=
  match decode payload with
  | Option.some b => if b.isEmpty then QVariant.str payload else QVariant.hash b
  | Option.none => QVariant.str payload

/-- Claim C3: every successful read completion updates the cache by an
insert, at the job's storage key, of exactly the value the spec
prescribes, where Codec.decode is the JSON parse composed with the
map-to-hash conversion: the decoded bundle when decoding succeeds with a
non-empty bundle, else the raw payload as an opaque string. -/
theorem read_success_stores_spec_value (parse : String → Option QVariant)
    (st : MgrState) (j : ReadJob) (payload : String) :
    (keychainJobFinishedRead parse st j (JobResult.ok payload)).credentials
      = Store.insertKV st.credentials (CredentialsStorageKey.mk j.service j.key)
          (specReadValue (fun t => (parse t).map QVariant.toHashList) payload) := by
  rw [keychainJobFinishedRead_credentials]
  have hval : readSuccessValue parse payload
      = specReadValue (fun t => (parse t).map QVariant.toHashList) payload := by
    cases hp : parse payload with
    | none => simp [readSuccessValue, specReadValue, hp]
    | some v =>
        cases hl : QVariant.toHashList v with
        | nil => simp [readSuccessValue, specReadValue, hp, hl]
        | cons a t => simp [readSuccessValue, specReadValue, hp, hl]
  show Store.insertKV st.credentials (CredentialsStorageKey.mk j.service j.key)
      (readSuccessValue parse payload) = _
  rw [hval]

/-! ### Claim C7 -/

lemma Store.valueD_of_not_containsKey (s : Store) (k : CredentialsStorageKey)
    (h : Store.containsKey s k = false) : Store.valueD s k = QVariant.null := by
  induction s with
  | nil => rfl
  | cons p rest ih =>
      by_cases hp : p.1 = k
      · rw [Store.containsKey, if_pos hp] at h
        exact Bool.noConfusion h
      · rw [Store.containsKey, if_neg hp] at h
        rw [Store.valueD, if_neg hp]
        exact ih h

/-- Claim C7: a read completion that reports backend failure leaves the
cache untouched, still removes the job from the per-service pending set,
still emits serviceReady exactly when that removal drains the set, and
the credentials query for that key afterwards returns the null sentinel
whenever the key was not cached before. -/
theorem read_failure_no_cache_entry (parse : String → Option QVariant)
    (st : MgrState) (j : ReadJob) :
    (keychainJobFinishedRead parse st j JobResult.err).credentials = st.credentials
    ∧ (keychainJobFinishedRead parse st j JobResult.err).readJobs j.service
        = (st.readJobs j.service).erase j
    ∧ (keychainJobFinishedRead parse st j JobResult.err).emitted
        = (if ((st.readJobs j.service).erase j).isEmpty then st.emitted ++ [j.service]
           else st.emitted)
    ∧ (Store.containsKey st.credentials (CredentialsStorageKey.mk j.service j.key)
          = false →
        credentialsFor (keychainJobFinishedRead parse st j JobResult.err)
          j.service j.key = QVariant.null) := by
  refine ⟨keychainJobFinishedRead_credentials parse st j JobResult.err, ?_, ?_, ?_⟩
  · rw [keychainJobFinishedRead_readJobs]
    simp
  · exact keychainJobFinishedRead_emitted parse st j JobResult.err
  · intro hnc
    rw [credentialsFor, keychainJobFinishedRead_credentials]
    exact Store.valueD_of_not_containsKey st.credentials
      (CredentialsStorageKey.mk j.service j.key) hnc

/-- The state after registering service "email" with keys user and pass
on a fresh manager: two read jobs are pending. -/
def mgrEmail : MgrState := addService mgr0 "email" ["user", "pass"]

/-- The first read job launched by mgrEmail's load cycle. -/
def jobUser : ReadJob := ReadJob.mk "email" "user" 0

/-- Witness for C7: failing the user read of the concrete two-key cycle
leaves the cache empty and the credentials query returns null. -/
theorem read_failure_no_cache_entry_witness :
    (keychainJobFinishedRead parseNone mgrEmail jobUser JobResult.err).credentials
        = mgrEmail.credentials
    ∧ (keychainJobFinishedRead parseNone mgrEmail jobUser JobResult.err).readJobs
          jobUser.service
        = (mgrEmail.readJobs jobUser.service).erase jobUser
    ∧ (keychainJobFinishedRead parseNone mgrEmail jobUser JobResult.err).emitted
        = (if ((mgrEmail.readJobs jobUser.service).erase jobUser).isEmpty
           then mgrEmail.emitted ++ [jobUser.service] else mgrEmail.emitted)
    ∧ Store.containsKey mgrEmail.credentials
          (CredentialsStorageKey.mk jobUser.service jobUser.key) = false
    ∧ credentialsFor (keychainJobFinishedRead parseNone mgrEmail jobUser JobResult.err)
          jobUser.service jobUser.key = QVariant.null :=
  ⟨(read_failure_no_cache_entry parseNone mgrEmail jobUser).1,
    (read_failure_no_cache_entry parseNone mgrEmail jobUser).2.1,
    (read_failure_no_cache_entry parseNone mgrEmail jobUser).2.2.1,
    by decide,
    (read_failure_no_cache_entry parseNone mgrEmail jobUser).2.2.2 (by decide)⟩

/-! ### Claim C8 -/

/-- Claim C8: in the setCredentials write path with a bundle value, a
failing encoder does not abort the write: the write job is still issued
and carries exactly the bytes the encoder produced. -/
theorem bundle_encode_failure_still_writes
    (ser : List (String × String) → String × Bool) (st : MgrState)
    (csKey : CredentialsStorageKey) (h : List (String × String)) (tw : Bool)
    (hne : h ≠ []) (hdiff : QVariant.hash h ≠ Store.valueD st.credentials csKey)
    (hfail : (ser h).2 = false) :
    (setCredentials ser st csKey (QVariant.hash h) tw).issuedWrites
      = st.issuedWrites
          ++ [WriteJob.mk csKey.service csKey.key (Option.some (ser h).1)] := by
  have hemp : (QVariant.hash h).isEmptyValue = false := by
    show h.isEmpty = false
    cases h with
    | nil => exact absurd rfl hne
    | cons a t => rfl
  rw [setCredentials, if_neg (by rw [hemp]; exact Bool.false_ne_true), if_neg hdiff]
  have hw : writePayload ser (QVariant.hash h) tw = Option.some (ser h).1 := by
    unfold writePayload
    simp [QVariant.isStr, QVariant.isHash, QVariant.toHashList]
  show st.issuedWrites
      ++ [WriteJob.mk csKey.service csKey.key (writePayload ser (QVariant.hash h) tw)]
    = _
  rw [hw]

/-- Witness for C8: serFail fails to encode the one-entry bundle, yet the
write job is issued with serFail's (empty) output. -/
theorem bundle_encode_failure_still_writes_witness :
    ([("a", "1")] : List (String × String)) ≠ []
    ∧ QVariant.hash [("a", "1")] ≠ Store.valueD mgr0.credentials keyEP
    ∧ (serFail [("a", "1")]).2 = false
    ∧ (setCredentials serFail mgr0 keyEP (QVariant.hash [("a", "1")]) false).issuedWrites
        = mgr0.issuedWrites
            ++ [WriteJob.mk keyEP.service keyEP.key
                  (Option.some (serFail [("a", "1")]).1)] :=
  ⟨by decide, by decide, rfl,
    bundle_encode_failure_still_writes serFail mgr0 keyEP [("a", "1")] false
      (by decide) (by decide) rfl⟩

/-! ### Claim C2 -/

/-- The spec's store invariant: no cached entry holds an absent/empty
value. -/
def storeInvB (s : Store) : Bool :=
  s.all (fun p => !p.2.isEmptyValue)

lemma Store.mem_removeKey_imp (k : CredentialsStorageKey)
    (p : CredentialsStorageKey × QVariant) :
    ∀ s : Store, p ∈ Store.removeKey s k → p ∈ s := by
  intro s
  induction s with
  | nil =>
      intro hp
      exact absurd hp (List.not_mem_nil p)
  | cons q rest ih =>
      intro hp
      by_cases hq : q.1 = k
      · rw [Store.removeKey, if_pos hq] at hp
        exact List.mem_cons_of_mem q (ih hp)
      · rw [Store.removeKey, if_neg hq] at hp
        cases List.mem_cons.mp hp with
        | inl he => exact List.mem_cons.mpr (Or.inl he)
        | inr hm => exact List.mem_cons_of_mem q (ih hm)

lemma storeInvB_removeKey (s : Store) (k : CredentialsStorageKey)
    (h : storeInvB s = true) : storeInvB (Store.removeKey s k) = true := by
  rw [storeInvB, List.all_eq_true] at h ⊢
  intro p hp
  exact h p (Store.mem_removeKey_imp k p s hp)

lemma storeInvB_insertKV (s : Store) (k : CredentialsStorageKey) (v : QVariant)
    (h : storeInvB s = true) (hv : v.isEmptyValue = false) :
    storeInvB (Store.insertKV s k v) = true := by
  rw [storeInvB, List.all_eq_true] at h ⊢
  intro p hp
  rw [Store.insertKV] at hp
  cases List.mem_cons.mp hp with
  | inl he =>
      rw [he]
      show (!v.isEmptyValue) = true
      rw [hv]
      rfl
  | inr hm => exact h p (Store.mem_removeKey_imp k p s hm)

lemma readSuccessValue_nonempty (parse : String → Option QVariant) (payload : String)
    (h : payload ≠ "") :
    (readSuccessValue parse payload).isEmptyValue = false := by
  rw [readSuccessValue]
  by_cases hc : (!(parse payload).isSome
      || (QVariant.toHashList ((parse payload).getD QVariant.null)).isEmpty) = true
  · rw [if_pos hc]
    show payload.isEmpty = false
    rw [Bool.eq_false_iff]
    intro hh
    exact h ((String.isEmpty_iff payload).mp hh)
  · rw [if_neg hc]
    show (QVariant.toHashList ((parse payload).getD QVariant.null)).isEmpty = false
    cases hl : (QVariant.toHashList ((parse payload).getD QVariant.null)).isEmpty with
    | false => rfl
    | true =>
        refine absurd ?_ hc
        rw [hl]
        exact Bool.or_true _

/-- Claim C2 (amended): the no-absent/empty-entry invariant is preserved
by both setCredentials paths and by every failed read completion, and by
every successful read completion whose payload is non-empty; a successful
read completion with an empty payload violates it (see the
counterexample). -/
theorem store_invariant_preservation (parse : String → Option QVariant)
    (ser : List (String × String) → String × Bool) (st : MgrState)
    (hinv : storeInvB st.credentials = true) :
    (∀ csKey value tw,
        storeInvB (setCredentials ser st csKey value tw).credentials = true)
    ∧ (∀ j,
        storeInvB (keychainJobFinishedRead parse st j JobResult.err).credentials
          = true)
    ∧ (∀ j payload, payload ≠ "" →
        storeInvB
            (keychainJobFinishedRead parse st j (JobResult.ok payload)).credentials
          = true) := by
  refine ⟨?_, ?_, ?_⟩
  · intro csKey value tw
    by_cases hemp : value.isEmptyValue = true
    · by_cases hc : Store.containsKey st.credentials csKey = true
      · rw [setCredentials, if_pos hemp, if_pos hc]
        exact storeInvB_removeKey st.credentials csKey hinv
      · rw [setCredentials, if_pos hemp, if_neg hc]
        exact hinv
    · by_cases heq : value = Store.valueD st.credentials csKey
      · rw [setCredentials, if_neg hemp, if_pos heq]
        exact hinv
      · rw [setCredentials, if_neg hemp, if_neg heq]
        exact storeInvB_insertKV st.credentials csKey value hinv
          (Bool.not_eq_true value.isEmptyValue ▸ hemp)
  · intro j
    rw [keychainJobFinishedRead_credentials]
    exact hinv
  · intro j payload hp
    rw [keychainJobFinishedRead_credentials]
    exact storeInvB_insertKV st.credentials
      (CredentialsStorageKey.mk j.service j.key) (readSuccessValue parse payload)
      hinv (readSuccessValue_nonempty parse payload hp)

/-- Witness for the amended C2 at a concrete cached state: the invariant
holds and is preserved by a delete, a failed read and a successful
non-empty read. -/
theorem store_invariant_preservation_witness :
    storeInvB mgrCached.credentials = true
    ∧ storeInvB
        (setCredentials serFail mgrCached keyEP QVariant.null false).credentials = true
    ∧ storeInvB
        (keychainJobFinishedRead parseNone mgrCached jobUser JobResult.err).credentials
        = true
    ∧ storeInvB
        (keychainJobFinishedRead parseNone mgrCached jobUser
          (JobResult.ok "hunter2")).credentials = true :=
  ⟨by decide,
    (store_invariant_preservation parseNone serFail mgrCached (by decide)).1
      keyEP QVariant.null false,
    (store_invariant_preservation parseNone serFail mgrCached (by decide)).2.1 jobUser,
    (store_invariant_preservation parseNone serFail mgrCached (by decide)).2.2 jobUser
      "hunter2" (by decide)⟩

/-- Counterexample for C2 as stated: starting from the reachable state in
which service s registered key k, a successful read completion whose
payload is the empty string (QJson's parser fails on empty input) inserts
an entry whose value is the empty opaque string, so the read-completion
operation does not preserve the invariant. -/
theorem store_invariant_read_counterexample :
    storeInvB (addService mgr0 "s" ["k"]).credentials = true
    ∧ storeInvB
        (keychainJobFinishedRead parseNone (addService mgr0 "s" ["k"])
          (ReadJob.mk "s" "k" 0) (JobResult.ok "")).credentials = false := by
  constructor
  · decide
  · decide

/-! ### Claim C6 -/

/-- Claim C6 (amended): addService with an empty key list issues no read
jobs, and it emits serviceReady synchronously within the call exactly
when no read jobs for that service are still pending from an earlier
cycle; in particular on a service with no in-flight jobs the emission is
synchronous, while with stale pending jobs nothing is emitted by the
call. -/
theorem addService_empty_keys (st : MgrState) (svc : String) :
    (addService st svc []).issuedReads = st.issuedReads
    ∧ (addService st svc []).emitted
        = (if (st.readJobs svc).isEmpty then st.emitted ++ [svc] else st.emitted) := by
  by_cases hc : (st.readJobs svc).isEmpty = true
  · constructor <;> simp [addService, loadCredentials, mkJobs, hc]
  · constructor <;> simp [addService, loadCredentials, mkJobs, hc]

/-- Counterexample for C6 as stated: from the fresh manager, register
service s with one key (launching one read job), then re-register s with
an empty key list while that job is still pending; the second addService
call issues no read job but does not emit serviceReady either — the
emission trace is still empty. -/
theorem addService_empty_keys_counterexample :
    (addService (addService mgr0 "s" ["k"]) "s" []).emitted = []
    ∧ (addService (addService mgr0 "s" ["k"]) "s" []).issuedReads
        = (addService mgr0 "s" ["k"]).issuedReads := by
  constructor
  · decide
  · decide

/-! ### Claim C1 -/

lemma mkJobs_service (svc : String) :
    ∀ (ks : List String) (n : Nat) (j : ReadJob), j ∈ mkJobs svc ks n →
      j.service = svc
  | [], _, j => fun hj => absurd hj (List.not_mem_nil j)
  | k :: ks, n, j => fun hj => by
      cases List.mem_cons.mp hj with
      | inl he => rw [he]
      | inr hm => exact mkJobs_service svc ks (n + 1) j hm

lemma mkJobs_id_ge (svc : String) :
    ∀ (ks : List String) (n : Nat) (j : ReadJob), j ∈ mkJobs svc ks n → n ≤ j.id
  | [], _, j => fun hj => absurd hj (List.not_mem_nil j)
  | k :: ks, n, j => fun hj => by
      cases List.mem_cons.mp hj with
      | inl he => rw [he]
      | inr hm => exact Nat.le_of_succ_le (mkJobs_id_ge svc ks (n + 1) j hm)

lemma mkJobs_nodup (svc : String) :
    ∀ (ks : List String) (n : Nat), (mkJobs svc ks n).Nodup
  | [], _ => List.nodup_nil
  | k :: ks, n => by
      rw [mkJobs]
      refine List.nodup_cons.mpr ⟨?_, mkJobs_nodup svc ks (n + 1)⟩
      intro hmem
      have h2 : n + 1 ≤ n := mkJobs_id_ge svc ks (n + 1) (ReadJob.mk svc k n) hmem
      exact Nat.not_succ_le_self n h2

lemma mkJobs_eq_nil_iff (svc : String) (ks : List String) (n : Nat) :
    mkJobs svc ks n = [] ↔ ks = [] := by
  cases ks with
  | nil => simp [mkJobs]
  | cons k rest => simp [mkJobs]

lemma addService_readJobs_fresh (st : MgrState) (svc : String) (ks : List String)
    (hfresh : st.readJobs svc = []) :
    (addService st svc ks).readJobs svc = mkJobs svc ks st.nextId := by
  unfold addService loadCredentials
  by_cases hc : (mkJobs svc ks st.nextId).isEmpty = true
  · simp [hfresh, hc]
  · simp [hfresh, hc]

lemma addService_emitted_fresh (st : MgrState) (svc : String) (ks : List String)
    (hfresh : st.readJobs svc = []) :
    (addService st svc ks).emitted
      = (if ks.isEmpty then st.emitted ++ [svc] else st.emitted) := by
  unfold addService loadCredentials
  by_cases hc : (mkJobs svc ks st.nextId).isEmpty = true
  · have hk : ks.isEmpty = true := by
      rw [List.isEmpty_iff] at hc ⊢
      exact (mkJobs_eq_nil_iff svc ks st.nextId).mp hc
    simp [hfresh, hc, hk]
  · have hk : ¬ ks.isEmpty = true := by
      rw [List.isEmpty_iff] at hc ⊢
      exact fun hh => hc ((mkJobs_eq_nil_iff svc ks st.nextId).mpr hh)
    simp [hfresh, hc, hk]

/-- The core drain argument: if the pending read jobs of a service are
pairwise distinct, all carry that service name, and a sequence of
completion events hits exactly those jobs (in any order, with any
results), then processing the whole sequence emits serviceReady for the
service exactly once, and processing any proper prefix emits nothing for
it. -/
lemma drain_exactly_once (parse : String → Option QVariant) (svc : String)
    (evts : List (ReadJob × JobResult)) :
    ∀ st : MgrState,
    (evts.map Prod.fst).Perm (st.readJobs svc) →
    (st.readJobs svc).Nodup →
    (∀ j ∈ st.readJobs svc, j.service = svc) →
    evts ≠ [] →
    ((processCompletions parse st evts).emitted.count svc
        = st.emitted.count svc + 1
      ∧ ∀ p q, p ++ q = evts → q ≠ [] →
          (processCompletions parse st p).emitted.count svc
            = st.emitted.count svc) := by
  induction evts with
  | nil =>
      intro st _ _ _ hne
      exact absurd rfl hne
  | cons e t ih =>
      intro st hperm hnd hsvc _
      rw [List.map_cons] at hperm
      have hmem : e.1 ∈ st.readJobs svc :=
        hperm.subset (List.mem_cons_self e.1 (t.map Prod.fst))
      have he1svc : e.1.service = svc := hsvc e.1 hmem
      have hjobs2 : (keychainJobFinishedRead parse st e.1 e.2).readJobs svc
          = (st.readJobs svc).erase e.1 := by
        rw [keychainJobFinishedRead_readJobs]
        simp [he1svc]
      have hperm2 : (t.map Prod.fst).Perm ((st.readJobs svc).erase e.1) :=
        (hperm.trans (List.perm_cons_erase hmem)).cons_inv
      have hnd2 : ((st.readJobs svc).erase e.1).Nodup := hnd.erase e.1
      have hsvc2 : ∀ j ∈ (st.readJobs svc).erase e.1, j.service = svc :=
        fun j hj => hsvc j (List.mem_of_mem_erase hj)
      have hemit : (keychainJobFinishedRead parse st e.1 e.2).emitted
          = (if ((st.readJobs svc).erase e.1).isEmpty then st.emitted ++ [svc]
             else st.emitted) := by
        rw [keychainJobFinishedRead_emitted, he1svc]
      cases t with
      | nil =>
          simp only [List.map_nil] at hperm2
          have hnil : (st.readJobs svc).erase e.1 = [] := hperm2.symm.eq_nil
          constructor
          · show (keychainJobFinishedRead parse st e.1 e.2).emitted.count svc
                = st.emitted.count svc + 1
            rw [hemit, hnil]
            simp [List.count_append]
          · intro p q hpq hq
            cases p with
            | nil => rfl
            | cons e2 p2 =>
                rw [List.cons_append] at hpq
                injection hpq with h1 h2
                exact absurd (List.append_eq_nil.mp h2).2 hq
      | cons e2 t2 =>
          have hne2 : (st.readJobs svc).erase e.1 ≠ [] := by
            intro hcon
            rw [hcon] at hperm2
            have := hperm2.eq_nil
            exact List.noConfusion (List.map_eq_nil_iff.mp this)
          have hemit2 : (keychainJobFinishedRead parse st e.1 e.2).emitted
              = st.emitted := by
            rw [hemit, if_neg (fun hcon => hne2 (List.isEmpty_iff.mp hcon))]
          obtain ⟨ih1, ih2⟩ := ih (keychainJobFinishedRead parse st e.1 e.2)
            (by rw [hjobs2]; exact hperm2) (by rw [hjobs2]; exact hnd2)
            (by rw [hjobs2]; exact hsvc2) (List.cons_ne_nil e2 t2)
          constructor
          · show (processCompletions parse (keychainJobFinishedRead parse st e.1 e.2)
                (e2 :: t2)).emitted.count svc = st.emitted.count svc + 1
            rw [ih1, hemit2]
          · intro p q hpq hq
            cases p with
            | nil => rfl
            | cons e3 p3 =>
                rw [List.cons_append] at hpq
                injection hpq with h1 h2
                subst h1
                have hstep : processCompletions parse st (e3 :: p3)
                    = processCompletions parse
                        (keychainJobFinishedRead parse st e3.1 e3.2) p3 := rfl
                rw [hstep, ih2 p3 q h2 hq, hemit2]

/-- Claim C1: starting a load cycle for a service with no pending jobs,
addService launches one read job per key; for any arrival order and any
results of exactly those completions, serviceReady for the service is
emitted exactly once over the whole cycle, and (when at least one key is
registered) never before the last completion; with zero keys the single
emission already happens inside addService. -/
theorem serviceReady_exactly_once_after_all_completions
    (parse : String → Option QVariant) (st : MgrState) (svc : String)
    (ks : List String) (evts : List (ReadJob × JobResult))
    (hfresh : st.readJobs svc = [])
    (hperm : (evts.map Prod.fst).Perm ((addService st svc ks).readJobs svc)) :
    (processCompletions parse (addService st svc ks) evts).emitted.count svc
        = st.emitted.count svc + 1
    ∧ (ks ≠ [] → ∀ p q, p ++ q = evts → q ≠ [] →
        (processCompletions parse (addService st svc ks) p).emitted.count svc
          = st.emitted.count svc) := by
  have hjobs := addService_readJobs_fresh st svc ks hfresh
  have hemit := addService_emitted_fresh st svc ks hfresh
  cases ks with
  | nil =>
      have hjn : (addService st svc []).readJobs svc = [] := by
        rw [hjobs]
        rfl
      rw [hjn] at hperm
      have hevts : evts = [] := List.map_eq_nil_iff.mp hperm.eq_nil
      subst hevts
      constructor
      · show (addService st svc []).emitted.count svc = st.emitted.count svc + 1
        rw [hemit]
        simp [List.count_append]
      · intro hcon
        exact absurd rfl hcon
  | cons k1 krest =>
      have hne : mkJobs svc (k1 :: krest) st.nextId ≠ [] := by
        rw [mkJobs]
        exact List.cons_ne_nil _ _
      have hcount : (addService st svc (k1 :: krest)).emitted.count svc
          = st.emitted.count svc := by
        rw [hemit]
        rfl
      have hevne : evts ≠ [] := by
        intro hcon
        subst hcon
        simp only [List.map_nil] at hperm
        rw [hjobs] at hperm
        exact hne hperm.nil_eq.symm
      obtain ⟨d1, d2⟩ := drain_exactly_once parse svc evts
        (addService st svc (k1 :: krest)) hperm
        (by rw [hjobs]; exact mkJobs_nodup svc (k1 :: krest) st.nextId)
        (by rw [hjobs]; exact fun j hj => mkJobs_service svc (k1 :: krest) st.nextId j hj)
        hevne
      exact ⟨by rw [d1, hcount],
        fun _ p q hpq hq => by rw [d2 p q hpq hq, hcount]⟩

/-- The completion events of the witness cycle, arriving in reverse
launch order: the pass job fails first, then the user job succeeds. -/
def evtsW : List (ReadJob × JobResult) :=
  [(ReadJob.mk "email" "pass" 1, JobResult.err),
   (ReadJob.mk "email" "user" 0, JobResult.ok "hunter2")]

/-- Witness for C1: on the concrete two-key cycle with out-of-order
completions, exactly one serviceReady is emitted over the whole cycle
and none has been emitted after only the first completion. -/
theorem serviceReady_exactly_once_witness :
    mgr0.readJobs "email" = []
    ∧ (List.map Prod.fst evtsW).Perm
        ((addService mgr0 "email" ["user", "pass"]).readJobs "email")
    ∧ (processCompletions parseNone (addService mgr0 "email" ["user", "pass"])
        evtsW).emitted.count "email" = mgr0.emitted.count "email" + 1
    ∧ (processCompletions parseNone (addService mgr0 "email" ["user", "pass"])
        [(ReadJob.mk "email" "pass" 1, JobResult.err)]).emitted.count "email"
        = mgr0.emitted.count "email" :=
  ⟨rfl, by decide,
    (serviceReady_exactly_once_after_all_completions parseNone mgr0 "email"
      ["user", "pass"] evtsW rfl (by decide)).1,
    (serviceReady_exactly_once_after_all_completions parseNone mgr0 "email"
      ["user", "pass"] evtsW rfl (by decide)).2 (by decide)
      [(ReadJob.mk "email" "pass" 1, JobResult.err)]
      [(ReadJob.mk "email" "user" 0, JobResult.ok "hunter2")] rfl (by decide)⟩
